import Mathlib

/-!
Verification of the finding-aggregation and scan-report core of a GitHub
pull-request security scanner.

The development shallowly embeds:
* the finding normalizer and risk aggregator of `src/services/analyzer.ts`
  (`analyzeFile`'s filter/map tail, `determineOverallRisk`, `generateSummary`,
  `analyzeFiles`, `isCodeFile`);
* the JSON-extraction front end of `analyzeFile` (the regex match for the
  first-to-last bracket span and the `JSON.parse` call, with `JSON.parse`
  modelled by an executable fuel-based JSON reader);
* the scan-report store (`saveScan`, `getScanById`, `listScans`, `getStats`,
  `getNotableFindings`, `getRepos`, and the `loadScans` rebuild loop), with
  the two process-wide JavaScript `Map`s modelled as insertion-ordered
  association lists.

JavaScript numbers that the code only ever populates with non-negative
integers (line numbers, PR numbers, `Date.now()` timestamps, counts) are
modelled as `Nat`; the LLM confidence score is modelled as `Rat`.
-/

namespace SecureShip

/-- Severity of a single finding, per `SecurityFinding` in `src/types/index.ts`. -/
inductive Severity where
  | critical
  | high
  | medium
  | low
deriving DecidableEq, Repr

/-- One suspected security issue, per `SecurityFinding` in `src/types/index.ts`.
`confidence` is a JavaScript number in [0,1], modelled as `Rat`. -/
structure SecurityFinding where
  type : String
  severity : Severity
  file : String
  line : Nat
  description : String
  suggestion : String
  cweId : Option String
  owaspCategory : Option String
  confidence : Rat
deriving DecidableEq, Repr

/-- The confidence cutoff literal `0.7` of `analyzeFile`, as the exact
rational 7/10. -/
def confidenceThreshold : Rat := mkRat 7 10

/-- The normalizer tail of `analyzeFile` (`src/services/analyzer.ts` lines 44-49):
`findings.filter(f => f.confidence >= 0.7).map(f => ({...f, file: file.filename}))`. -/
def normalizeFindings (findings : List SecurityFinding) (filename : String) :
    List SecurityFinding :=
  (findings.filter (fun f => confidenceThreshold ≤ f.confidence)).map
    (fun f => { f with file := filename })

/-- Modelled from the spec's words (for comparison with `normalizeFindings`):
drop any finding with confidence < 0.7; set `file` on each survivor; keep
input order; touch no other field. -/
def specNormalize (filename : String) : List SecurityFinding → List SecurityFinding
  | [] => []
  | f :: fs =>
    if confidenceThreshold ≤ f.confidence then
      { f with file := filename } :: specNormalize filename fs
    else
      specNormalize filename fs

/-- Overall risk level, per `AnalysisResult.overallRisk` in `src/types/index.ts`. -/
inductive Risk where
  | critical
  | high
  | medium
  | low
  | none
deriving DecidableEq, Repr

/-- `determineOverallRisk` from `src/services/analyzer.ts` lines 91-97. -/
def determineOverallRisk (findings : List SecurityFinding) : Risk :=
  if findings.any (fun f => f.severity == Severity.critical) then Risk.critical
  else if findings.any (fun f => f.severity == Severity.high) then Risk.high
  else if findings.any (fun f => f.severity == Severity.medium) then Risk.medium
  else if findings.any (fun f => f.severity == Severity.low) then Risk.low
  else Risk.none

/-- The risk corresponding to a finding's severity. -/
def riskOfSeverity : Severity → Risk
  | Severity.critical => Risk.critical
  | Severity.high => Risk.high
  | Severity.medium => Risk.medium
  | Severity.low => Risk.low

/-- Rank in the total order critical > high > medium > low > none. -/
def riskRank : Risk → Nat
  | Risk.none => 0
  | Risk.low => 1
  | Risk.medium => 2
  | Risk.high => 3
  | Risk.critical => 4

/-- Maximum of two risks in the total order critical > high > medium > low > none. -/
def riskMax (a b : Risk) : Risk :=
  if riskRank a ≤ riskRank b then b else a

/-- Modelled from the spec's words (for comparison with `determineOverallRisk`):
the maximum severity present, or `none` if empty. -/
def specOverallRisk (findings : List SecurityFinding) : Risk :=
  (findings.map (fun f => riskOfSeverity f.severity)).foldr riskMax Risk.none

/-- `generateSummary` from `src/services/analyzer.ts` lines 99-116. -/
def generateSummary (findings : List SecurityFinding) : String :=
  if findings.length = 0 then
    "✅ No security issues found in this PR."
  else
    let critical := (findings.filter (fun f => f.severity == Severity.critical)).length
    let high := (findings.filter (fun f => f.severity == Severity.high)).length
    let medium := (findings.filter (fun f => f.severity == Severity.medium)).length
    let low := (findings.filter (fun f => f.severity == Severity.low)).length
    let parts :=
      (if critical > 0 then ["🔴 " ++ toString critical ++ " critical"] else []) ++
      (if high > 0 then ["🟠 " ++ toString high ++ " high"] else []) ++
      (if medium > 0 then ["🟡 " ++ toString medium ++ " medium"] else []) ++
      (if low > 0 then ["🟢 " ++ toString low ++ " low"] else [])
    "Found " ++ toString findings.length ++ " security issue(s): " ++
      String.intercalate ", " parts

/-- Result of analysing one pull request, per `AnalysisResult` in `src/types/index.ts`. -/
structure AnalysisResult where
  findings : List SecurityFinding
  summary : String
  overallRisk : Risk
deriving DecidableEq, Repr

/-- A changed file of a pull request, per `PullRequestFile` in `src/types/index.ts`. -/
structure PullRequestFile where
  filename : String
  status : String
  patch : Option String
  additions : Nat
  deletions : Nat
deriving DecidableEq, Repr

/-- The extension allowlist of `isCodeFile` (`src/services/analyzer.ts` lines 84-87). -/
def codeExtensions : List String :=
  [".ts", ".tsx", ".js", ".jsx", ".py", ".go", ".java",
   ".rb", ".php", ".cs", ".cpp", ".c", ".rs", ".swift", ".kt"]

/-- `isCodeFile` from `src/services/analyzer.ts` lines 83-89. -/
def isCodeFile (filename : String) : Bool :=
  codeExtensions.any (fun ext => filename.endsWith ext)

/-- The batch loop of `analyzeFiles` (`src/services/analyzer.ts` lines 61-68):
take five files at a time, analyse them, and append the flattened results in
order.  The per-file analysis (an awaited LLM call) is a parameter; batches
run concurrently inside but `Promise.all` returns results in input order, so
the accumulated list is order-preserving. -/
def analyzeBatches (analyze : PullRequestFile → List SecurityFinding)
    (files : List PullRequestFile) : List SecurityFinding :=
  match h : files with
  | [] => []
  | _ :: _ =>
    ((files.take 5).map analyze).flatten ++ analyzeBatches analyze (files.drop 5)
termination_by files.length
decreasing_by
  subst h
  simp only [List.length_drop, List.length_cons]
  omega

/-- `analyzeFiles` from `src/services/analyzer.ts` lines 56-81, with the
per-file LLM analysis abstracted as `analyze`. -/
def analyzeFiles (analyze : PullRequestFile → List SecurityFinding)
    (files : List PullRequestFile) : AnalysisResult :=
  let codeFiles := files.filter (fun f => isCodeFile f.filename)
  let findings := analyzeBatches analyze codeFiles
  { findings := findings
    summary := generateSummary findings
    overallRisk := determineOverallRisk findings }

/-! ### A model of `JSON.parse` and the bracket-span extraction of `analyzeFile`

`analyzeFile` (`src/services/analyzer.ts` lines 34-49) runs
`text.match(/\[[\s\S]*\]/)` — the span from the first `[` to the last `]`
of the response — and feeds the span to `JSON.parse`, returning `[]` when
either step fails (no-match check, or the surrounding try/catch).
`JSON.parse` is a JavaScript builtin; it is modelled here by an executable
fuel-based reader of the JSON grammar.  The model is slightly lenient in
corners no verified input reaches (it accepts raw control characters inside
string literals and leading zeros in numbers). -/

/-- A JSON value, as produced by `JSON.parse`.  Objects keep their fields in
source order. -/
inductive Json where
  | null
  | bool (b : Bool)
  | num (q : Rat)
  | str (s : String)
  | arr (elements : List Json)
  | obj (fields : List (String × Json))

/-- JSON insignificant whitespace. -/
def isJsonWs (c : Char) : Bool :=
  c == ' ' || c == '\t' || c == '\n' || c == '\r'

/-- Drop leading JSON whitespace. -/
def skipWs (cs : List Char) : List Char :=
  cs.dropWhile isJsonWs

/-- Value of a hexadecimal digit. -/
def hexVal (c : Char) : Option Nat :=
  if '0' ≤ c ∧ c ≤ '9' then some (c.toNat - '0'.toNat)
  else if 'a' ≤ c ∧ c ≤ 'f' then some (c.toNat - 'a'.toNat + 10)
  else if 'A' ≤ c ∧ c ≤ 'F' then some (c.toNat - 'A'.toNat + 10)
  else Option.none

/-- Single-character JSON string escapes. -/
def escChar (e : Char) : Option Char :=
  if e = '"' then some '"'
  else if e = '\\' then some '\\'
  else if e = '/' then some '/'
  else if e = 'b' then some (Char.ofNat 8)
  else if e = 'f' then some (Char.ofNat 12)
  else if e = 'n' then some '\n'
  else if e = 'r' then some '\r'
  else if e = 't' then some '\t'
  else Option.none

/-- Parse the body of a JSON string after the opening quote; return the
decoded characters and the remainder after the closing quote. -/
def parseStringBody : List Char → Option (List Char × List Char)
  | [] => Option.none
  | '"' :: rest => some ([], rest)
  | '\\' :: 'u' :: h1 :: h2 :: h3 :: h4 :: rest =>
    (match hexVal h1, hexVal h2, hexVal h3, hexVal h4 with
     | some a, some b, some c, some d =>
       (parseStringBody rest).map
         (fun p => (Char.ofNat (((a * 16 + b) * 16 + c) * 16 + d) :: p.1, p.2))
     | _, _, _, _ => Option.none)
  | '\\' :: e :: rest =>
    (match escChar e with
     | some ch => (parseStringBody rest).map (fun p => (ch :: p.1, p.2))
     | Option.none => Option.none)
  | c :: rest => (parseStringBody rest).map (fun p => (c :: p.1, p.2))

/-- Digit run to a natural number. -/
def digitsToNat (ds : List Char) : Nat :=
  ds.foldl (fun acc c => acc * 10 + (c.toNat - '0'.toNat)) 0

/-- Parse a JSON number (sign, integer part, optional fraction, optional
exponent) into an exact rational. -/
def parseNumber (cs : List Char) : Option (Rat × List Char) :=
  let signStep : Bool × List Char :=
    match cs with
    | '-' :: r => (true, r)
    | _ => (false, cs)
  let neg := signStep.1
  let cs1 := signStep.2
  let intDigits := cs1.takeWhile Char.isDigit
  if intDigits.isEmpty then Option.none
  else
    let cs2 := cs1.dropWhile Char.isDigit
    let fracStep : Option (List Char × List Char) :=
      match cs2 with
      | '.' :: r =>
        let fd := r.takeWhile Char.isDigit
        if fd.isEmpty then Option.none else some (fd, r.dropWhile Char.isDigit)
      | _ => some ([], cs2)
    match fracStep with
    | Option.none => Option.none
    | some (fracDigits, cs3) =>
      let expStep : Option (Bool × List Char × List Char) :=
        match cs3 with
        | e :: r =>
          if e = 'e' ∨ e = 'E' then
            let esign : Bool × List Char :=
              match r with
              | '+' :: rr => (false, rr)
              | '-' :: rr => (true, rr)
              | _ => (false, r)
            let ed := esign.2.takeWhile Char.isDigit
            if ed.isEmpty then Option.none
            else some (esign.1, ed, esign.2.dropWhile Char.isDigit)
          else some (false, [], cs3)
        | [] => some (false, [], cs3)
      match expStep with
      | Option.none => Option.none
      | some (eneg, expDigits, cs4) =>
        let mag : Int := Int.ofNat (digitsToNat (intDigits ++ fracDigits))
        let mantissa : Int := if neg then -mag else mag
        let e10 : Nat := digitsToNat expDigits
        let q : Rat :=
          if eneg then mkRat mantissa (10 ^ (fracDigits.length + e10))
          else mkRat (mantissa * Int.ofNat (10 ^ e10)) (10 ^ fracDigits.length)
        some (q, cs4)

mutual

/-- Parse one JSON value; fuel bounds the recursion depth. -/
def parseValue (fuel : Nat) (cs : List Char) : Option (Json × List Char) :=
  match fuel with
  | 0 => Option.none
  | fuel' + 1 =>
    match skipWs cs with
    | 'n' :: 'u' :: 'l' :: 'l' :: rest => some (Json.null, rest)
    | 't' :: 'r' :: 'u' :: 'e' :: rest => some (Json.bool true, rest)
    | 'f' :: 'a' :: 'l' :: 's' :: 'e' :: rest => some (Json.bool false, rest)
    | '"' :: rest =>
      (parseStringBody rest).map (fun p => (Json.str (String.mk p.1), p.2))
    | '[' :: rest =>
      (match skipWs rest with
       | ']' :: rest2 => some (Json.arr [], rest2)
       | _ => (parseElems fuel' rest).map (fun p => (Json.arr p.1, p.2)))
    | '{' :: rest =>
      (match skipWs rest with
       | '}' :: rest2 => some (Json.obj [], rest2)
       | _ => (parseFields fuel' rest).map (fun p => (Json.obj p.1, p.2)))
    | c :: rest =>
      if c = '-' ∨ c.isDigit then
        (parseNumber (c :: rest)).map (fun p => (Json.num p.1, p.2))
      else Option.none
    | [] => Option.none

/-- Parse one or more comma-separated array elements and the closing bracket. -/
def parseElems (fuel : Nat) (cs : List Char) : Option (List Json × List Char) :=
  match fuel with
  | 0 => Option.none
  | fuel' + 1 =>
    match parseValue fuel' cs with
    | Option.none => Option.none
    | some (v, rest) =>
      match skipWs rest with
      | ']' :: rest2 => some ([v], rest2)
      | ',' :: rest2 =>
        (match parseElems fuel' rest2 with
         | some (vs, rest3) => some (v :: vs, rest3)
         | Option.none => Option.none)
      | _ => Option.none

/-- Parse one or more comma-separated object members and the closing brace. -/
def parseFields (fuel : Nat) (cs : List Char) : Option (List (String × Json) × List Char) :=
  match fuel with
  | 0 => Option.none
  | fuel' + 1 =>
    match skipWs cs with
    | '"' :: rest =>
      (match parseStringBody rest with
       | Option.none => Option.none
       | some (key, rest2) =>
         match skipWs rest2 with
         | ':' :: rest3 =>
           (match parseValue fuel' rest3 with
            | Option.none => Option.none
            | some (v, rest4) =>
              match skipWs rest4 with
              | '}' :: rest5 => some ([(String.mk key, v)], rest5)
              | ',' :: rest5 =>
                (match parseFields fuel' rest5 with
                 | some (kvs, rest6) => some ((String.mk key, v) :: kvs, rest6)
                 | Option.none => Option.none)
              | _ => Option.none)
         | _ => Option.none)
    | _ => Option.none

end

/-- Model of the JavaScript builtin `JSON.parse`: parse one value, allow only
trailing whitespace.  The fuel `2 * length + 2` exceeds the longest possible
chain of recursive parser calls for the input. -/
def jsonParse (s : String) : Option Json :=
  match parseValue (2 * s.length + 2) s.toList with
  | some (v, rest) => if (skipWs rest).isEmpty then some v else Option.none
  | Option.none => Option.none

/-- Model of `text.match(/\[[\s\S]*\]/)` (`src/services/analyzer.ts` line 35):
the span from the first `[` to the last `]` of the text, when the first `[`
comes before the last `]`; no match otherwise. -/
def extractJsonArray (text : String) : Option String :=
  let l := text.toList
  match l.findIdx? (fun x => x == '['), l.reverse.findIdx? (fun x => x == ']') with
  | some i, some k =>
    let j := l.length - 1 - k
    if i < j then some (String.mk ((l.drop i).take (j + 1 - i))) else Option.none
  | _, _ => Option.none

/-- Last-wins field lookup, matching how `JSON.parse` resolves duplicate keys. -/
def lookupField : List (String × Json) → String → Option Json
  | [], _ => Option.none
  | (k, v) :: rest, key =>
    match lookupField rest key with
    | some r => some r
    | Option.none => if k = key then some v else Option.none

/-- Model of the filter predicate `f.confidence >= 0.7` applied to an untyped
parsed element: true only when the element is an object whose `confidence`
field is a number ≥ 0.7 (in JavaScript, a missing field gives
`undefined >= 0.7`, which is false, and a non-object element has no fields). -/
def confidenceOk (j : Json) : Bool :=
  match j with
  | Json.obj fields =>
    (match lookupField fields "confidence" with
     | some (Json.num q) => decide (confidenceThreshold ≤ q)
     | _ => false)
  | _ => false

/-- Model of the object spread `{...f, file: file.filename}`: replace the
`file` field in place when present, append it otherwise. -/
def setField (fields : List (String × Json)) (key : String) (v : Json) :
    List (String × Json) :=
  if fields.any (fun p => p.1 == key) then
    fields.map (fun p => if p.1 == key then (p.1, v) else p)
  else fields ++ [(key, v)]

/-- Attach the filename to a surviving element (always an object, since
`confidenceOk` rejects everything else). -/
def withFileField (filename : String) (j : Json) : Json :=
  match j with
  | Json.obj fields => Json.obj (setField fields "file" (Json.str filename))
  | other => other

/-- The response-processing tail of `analyzeFile`
(`src/services/analyzer.ts` lines 34-53) on the raw LLM response text:
extract the bracket span, `JSON.parse` it, filter by confidence, attach the
filename.  Every failure path — no bracket span, a `JSON.parse` exception, or
a parse result that is not an array (on which `.filter` would throw) — ends in
the catch-all that returns `[]`.  The Lean model is total, so no input can
raise an exception. -/
def analyzeResponseText (text : String) (filename : String) : List Json :=
  match extractJsonArray text with
  | Option.none => []
  | some s =>
    match jsonParse s with
    | some (Json.arr xs) => (xs.filter confidenceOk).map (withFileField filename)
    | some _ => []
    | Option.none => []

/-- Modelled from the spec's words (for comparison with `extractJsonArray`):
the first well-formed JSON array in the text — the substring at the leftmost
start position, shortest first, that `JSON.parse` accepts as an array. -/
def firstJsonArraySub (text : String) : Option String :=
  let l := text.toList
  (List.range (l.length + 1)).findSome? (fun i =>
    (List.range (l.length + 1)).findSome? (fun j =>
      if i < j then
        let sub := String.mk ((l.drop i).take (j - i))
        match jsonParse sub with
        | some (Json.arr _) => some sub
        | _ => Option.none
      else Option.none))

/-! ### The scan report store

`src/services/storage.ts` (provided as `src/unnamed/part_000` lines 1-185)
keeps two process-wide JavaScript `Map`s: `scansById : Map<string, ScanReport>`
and `scansByRepo : Map<string, string[]>`.  A JavaScript `Map` iterates in
insertion order and `set` on an existing key updates the value in place, so
each map is modelled as an association list with exactly those semantics.
`persistScans` only writes the snapshot file and does not change the
in-memory state, so `saveScan` and the per-scan body of the `loadScans`
rebuild loop perform the same state update, `insertScan`. -/

/-- A persisted scan record, per `ScanReport` in the storage module.
`pullNumber`, `scannedAt` (a `Date.now()` timestamp) and `filesScanned` are
JavaScript numbers that the system only ever populates with non-negative
integers, modelled as `Nat`. -/
structure ScanReport where
  id : String
  owner : String
  repo : String
  pullNumber : Nat
  headSha : String
  scannedAt : Nat
  filesScanned : Nat
  findings : List SecurityFinding
  summary : String
  overallRisk : Risk
deriving DecidableEq, Repr

/-- `Map.get`: the value stored at a key, if any. -/
def mapGet {α : Type} : List (String × α) → String → Option α
  | [], _ => Option.none
  | (k, v) :: rest, key => if k = key then some v else mapGet rest key

/-- `Map.set`: update the value in place when the key exists (keeping its
insertion position), append a new entry otherwise. -/
def mapSet {α : Type} : List (String × α) → String → α → List (String × α)
  | [], key, v => [(key, v)]
  | (k, w) :: rest, key, v =>
    if k = key then (k, v) :: rest else (k, w) :: mapSet rest key v

/-- The in-memory state of the storage module: the primary map by id and the
secondary index by `owner/repo` key. -/
structure Store where
  scansById : List (String × ScanReport)
  scansByRepo : List (String × List String)
deriving DecidableEq, Repr

/-- The state at module load: both maps empty. -/
def emptyStore : Store := ⟨[], []⟩

/-- The secondary-index key of a report: `` `${scan.owner}/${scan.repo}` ``. -/
def repoKey (r : ScanReport) : String := r.owner ++ "/" ++ r.repo

/-- The shared insertion step: set the report under its id in the primary map
and append its id to the repo-key entry of the secondary index.  This is the
in-memory effect of both `saveScan` (lines 78-87) and one iteration of the
`loadScans` rebuild loop (lines 48-54). -/
def insertScan (st : Store) (scan : ScanReport) : Store :=
  { scansById := mapSet st.scansById scan.id scan
    scansByRepo :=
      mapSet st.scansByRepo (repoKey scan)
        (((mapGet st.scansByRepo (repoKey scan)).getD []) ++ [scan.id]) }

/-- `saveScan` (lines 78-87): insert, then persist the snapshot.  Persisting
writes the file and leaves the in-memory state unchanged. -/
def saveScan (st : Store) (scan : ScanReport) : Store := insertScan st scan

/-- The `loadScans` rebuild (lines 38-61) over an already-parsed snapshot:
insert every loaded scan into the empty startup state. -/
def loadScans (scans : List ScanReport) : Store :=
  scans.foldl insertScan emptyStore

/-- `getScanById` (lines 90-92). -/
def getScanById (st : Store) (id : String) : Option ScanReport :=
  mapGet st.scansById id

/-- `Array.from(scansById.values())`: the stored reports in insertion order. -/
def storeReports (st : Store) : List ScanReport :=
  st.scansById.map Prod.snd

/-- The ids present in the primary map, in insertion order. -/
def storedIds (st : Store) : List String :=
  st.scansById.map Prod.fst

/-- `getRepos` (lines 182-184): the keys of the secondary index. -/
def getRepos (st : Store) : List String :=
  st.scansByRepo.map Prod.fst

/-- The dynamic field lookup `(a as Record<string, unknown>)[sortBy]` of
`listScans`, restricted by the `typeof === 'number'` guard: only
`pullNumber`, `scannedAt` and `filesScanned` are numeric fields of a
`ScanReport`; every other name yields a non-number and the comparator
returns 0. -/
def numField (r : ScanReport) (key : String) : Option Nat :=
  if key = "pullNumber" then some r.pullNumber
  else if key = "scannedAt" then some r.scannedAt
  else if key = "filesScanned" then some r.filesScanned
  else Option.none

/-- `a` sorts no later than `b` under the `listScans` comparator
(comparator value ≤ 0): numeric fields compare ascending or descending per
`order`; everything else ties. -/
def scanLE (sortBy ord : String) (a b : ScanReport) : Bool :=
  match numField a sortBy, numField b sortBy with
  | some x, some y => if ord = "desc" then decide (y ≤ x) else decide (x ≤ y)
  | _, _ => true

/-- The reports surviving the optional repo filter of `listScans`
(lines 107-109). -/
def filteredReports (st : Store) (repoFilter : Option String) : List ScanReport :=
  match repoFilter with
  | some rk => (storeReports st).filter (fun s => repoKey s == rk)
  | Option.none => storeReports st

/-- The result shape of `listScans`. -/
structure ListScansResult where
  scans : List ScanReport
  total : Nat
deriving DecidableEq, Repr

/-- `listScans` (lines 95-127).  `Array.prototype.sort` is a stable
comparator sort (ECMAScript 2019), modelled by the stable `insertionSort`
over the ≤-relation of the comparator.  Pagination computes
`start = (page - 1) * limit` and takes `slice(start, start + limit)`; the
code's defaults are `page = 1`, `limit = 20`, `sortBy = "scannedAt"`,
`order = "desc"`. -/
def listScans (st : Store) (page limit : Nat) (repoFilter : Option String)
    (sortBy ord : String) : ListScansResult :=
  let sorted :=
    (filteredReports st repoFilter).insertionSort
      (fun a b => scanLE sortBy ord a b = true)
  let total := sorted.length
  let start := (page - 1) * limit
  { scans := (sorted.drop start).take limit, total := total }

/-- Per-severity finding counters, per the `Stats.bySeverity` shape. -/
structure SeverityCounts where
  critical : Nat
  high : Nat
  medium : Nat
  low : Nat
deriving DecidableEq, Repr

/-- The `Stats` shape returned by `getStats`. -/
structure Stats where
  totalScans : Nat
  totalFindings : Nat
  bySeverity : SeverityCounts
  lastScanAt : Option Nat
deriving DecidableEq, Repr

/-- `stats.bySeverity[finding.severity]++`. -/
def bumpSeverity (c : SeverityCounts) (s : Severity) : SeverityCounts :=
  match s with
  | Severity.critical => { c with critical := c.critical + 1 }
  | Severity.high => { c with high := c.high + 1 }
  | Severity.medium => { c with medium := c.medium + 1 }
  | Severity.low => { c with low := c.low + 1 }

/-- The `lastScanAt` update
`if (!stats.lastScanAt || scan.scannedAt > stats.lastScanAt)`: JavaScript
truthiness makes both `null` and `0` falsy, so a stored `0` is also
overwritten unconditionally. -/
def lastStep (cur : Option Nat) (t : Nat) : Option Nat :=
  match cur with
  | Option.none => some t
  | some v => if v = 0 ∨ v < t then some t else some v

/-- One iteration of the `getStats` accumulation loop (lines 140-150). -/
def statsStep (acc : Stats) (scan : ScanReport) : Stats :=
  { acc with
    totalFindings := acc.totalFindings + scan.findings.length
    bySeverity := scan.findings.foldl (fun c f => bumpSeverity c f.severity) acc.bySeverity
    lastScanAt := lastStep acc.lastScanAt scan.scannedAt }

/-- `getStats` (lines 130-153). -/
def getStats (st : Store) : Stats :=
  let scans := storeReports st
  scans.foldl statsStep
    { totalScans := scans.length
      totalFindings := 0
      bySeverity := ⟨0, 0, 0, 0⟩
      lastScanAt := Option.none }

/-- All findings of all stored scans, in scan insertion order then finding
order — the iteration order of the nested `getStats`/`getNotableFindings`
loops. -/
def allFindings (st : Store) : List SecurityFinding :=
  (storeReports st).flatMap ScanReport.findings

/-- A (scan, finding) pair of the notable-findings feed. -/
structure NotableEntry where
  scan : ScanReport
  finding : SecurityFinding
deriving DecidableEq, Repr

/-- The collection loop of `getNotableFindings` (lines 160-169): every
(scan, finding) pair whose severity is critical or high. -/
def collectNotable (st : Store) : List NotableEntry :=
  (storeReports st).flatMap (fun scan =>
    (scan.findings.filter
      (fun f => f.severity == Severity.critical || f.severity == Severity.high)).map
      (fun f => { scan := scan, finding := f }))

/-- `a` sorts no later than `b` under the notable-findings comparator
(lines 172-176): critical strictly first, then descending `scannedAt` of the
owning scan. -/
def notableLE (a b : NotableEntry) : Bool :=
  if a.finding.severity == Severity.critical && !(b.finding.severity == Severity.critical) then
    true
  else if !(a.finding.severity == Severity.critical) && (b.finding.severity == Severity.critical) then
    false
  else
    decide (b.scan.scannedAt ≤ a.scan.scannedAt)

/-- `getNotableFindings` (lines 156-179): collect, sort (stable comparator
sort, modelled as `insertionSort`), truncate to `limit` (default 50). -/
def getNotableFindings (st : Store) (limit : Nat) : List NotableEntry :=
  ((collectNotable st).insertionSort (fun a b => notableLE a b = true)).take limit

/-! ### Theorems -/

/-- C1: For every raw finding sequence and filename, the normalizer keeps
exactly the findings with confidence ≥ 0.7, in input order (the recursive
spec-worded `specNormalize` fixes both), sets `file` on each survivor, and
leaves every other field of a survivor unchanged. -/
theorem claim_C1 (fs : List SecurityFinding) (filename : String) :
    normalizeFindings fs filename = specNormalize filename fs ∧
    (∀ g ∈ normalizeFindings fs filename,
      g.file = filename ∧ confidenceThreshold ≤ g.confidence) ∧
    (∀ g ∈ normalizeFindings fs filename, ∃ f ∈ fs, confidenceThreshold ≤ f.confidence ∧
      g.type = f.type ∧ g.severity = f.severity ∧ g.line = f.line ∧
      g.description = f.description ∧ g.suggestion = f.suggestion ∧
      g.cweId = f.cweId ∧ g.owaspCategory = f.owaspCategory ∧
      g.confidence = f.confidence) := by
  refine ⟨?_, ?_, ?_⟩
  · induction fs with
    | nil => rfl
    | cons f fs ih =>
      by_cases h : confidenceThreshold ≤ f.confidence <;>
        simp [normalizeFindings, specNormalize, h, List.filter_cons] at * <;>
        exact ih
  · intro g hg
    obtain ⟨f, hf, rfl⟩ := List.mem_map.1 hg
    have hconf := (List.mem_filter.1 hf).2
    simp only [decide_eq_true_eq] at hconf
    exact ⟨rfl, hconf⟩
  · intro g hg
    obtain ⟨f, hf, rfl⟩ := List.mem_map.1 hg
    obtain ⟨hmem, hconf⟩ := List.mem_filter.1 hf
    simp only [decide_eq_true_eq] at hconf
    exact ⟨f, hmem, hconf, rfl, rfl, rfl, rfl, rfl, rfl, rfl, rfl⟩

/-- Concrete input for the C1 witness. -/
def c1f : SecurityFinding :=
  { type := "SQL Injection", severity := Severity.critical, file := "", line := 3
    description := "d", suggestion := "s", cweId := Option.none
    owaspCategory := Option.none, confidence := mkRat 9 10 }

/-- C1 witness at a one-element finding list. -/
theorem claim_C1_witness :
    ({ c1f with file := "app.ts" } : SecurityFinding).file = "app.ts" ∧
    confidenceThreshold ≤ ({ c1f with file := "app.ts" } : SecurityFinding).confidence :=
  (claim_C1 [c1f] "app.ts").2.1 _ (by decide)

/-- One unfolding step of `determineOverallRisk` as a maximum. -/
theorem determineOverallRisk_cons (f : SecurityFinding) (fs : List SecurityFinding) :
    determineOverallRisk (f :: fs) =
      riskMax (riskOfSeverity f.severity) (determineOverallRisk fs) := by
  cases hs : f.severity <;>
    cases hA : fs.any (fun f => f.severity == Severity.critical) <;>
    cases hB : fs.any (fun f => f.severity == Severity.high) <;>
    cases hC : fs.any (fun f => f.severity == Severity.medium) <;>
    cases hD : fs.any (fun f => f.severity == Severity.low) <;>
    simp [determineOverallRisk, List.any_cons, hs, hA, hB, hC, hD,
      riskOfSeverity, riskMax, riskRank]

/-- C2: `determineOverallRisk` is the maximum severity present under the
total order critical > high > medium > low > none; it is `none` on the empty
sequence; any sequence containing a critical finding maps to `critical`. -/
theorem claim_C2 (fs : List SecurityFinding) :
    determineOverallRisk fs = specOverallRisk fs ∧
    determineOverallRisk ([] : List SecurityFinding) = Risk.none ∧
    ((∃ f ∈ fs, f.severity = Severity.critical) →
      determineOverallRisk fs = Risk.critical) := by
  refine ⟨?_, rfl, ?_⟩
  · induction fs with
    | nil => rfl
    | cons f fs ih =>
      rw [determineOverallRisk_cons, ih]
      rfl
  · rintro ⟨f, hf, hsev⟩
    have hany : fs.any (fun f => f.severity == Severity.critical) = true :=
      List.any_eq_true.2 ⟨f, hf, by simp [hsev]⟩
    simp [determineOverallRisk, hany]

/-- Concrete input for the C2 witness. -/
def c2f : SecurityFinding :=
  { type := "RCE", severity := Severity.critical, file := "a.ts", line := 1
    description := "d", suggestion := "s", cweId := Option.none
    owaspCategory := Option.none, confidence := 1 }

/-- C2 witness: a singleton critical list aggregates to critical. -/
theorem claim_C2_witness : determineOverallRisk [c2f] = Risk.critical :=
  (claim_C2 [c2f]).2.2 ⟨c2f, by simp, rfl⟩

/-- The batch loop visits the files in order and concatenates per-file
results: it equals a flat map over the file list. -/
theorem analyzeBatches_eq_flatMap (az : PullRequestFile → List SecurityFinding) :
    ∀ (n : Nat) (files : List PullRequestFile), files.length ≤ n →
      analyzeBatches az files = files.flatMap az := by
  intro n
  induction n with
  | zero =>
    intro files hf
    have : files = [] := List.eq_nil_of_length_eq_zero (Nat.le_zero.1 hf)
    subst this
    simp [analyzeBatches]
  | succ n ih =>
    intro files hf
    cases files with
    | nil => simp [analyzeBatches]
    | cons f fs =>
      rw [analyzeBatches]
      have h1 : ((f :: fs).drop 5).length ≤ n := by
        simp only [List.length_drop, List.length_cons]
        simp only [List.length_cons] at hf
        omega
      rw [ih _ h1]
      conv_rhs => rw [← List.take_append_drop 5 (f :: fs)]
      rw [List.flatMap_append]
      rfl

/-- C10: `isCodeFile` accepts exactly the filenames ending in one of the
fixed extensions; `analyzeFiles` is unchanged by discarding the non-code
files up front (they are skipped entirely), and its findings are exactly the
ordered concatenation of the per-file results over the code files. -/
theorem claim_C10 :
    (∀ filename : String,
      isCodeFile filename = true ↔ ∃ ext ∈ codeExtensions, filename.endsWith ext = true) ∧
    (∀ (analyze : PullRequestFile → List SecurityFinding) (files : List PullRequestFile),
      analyzeFiles analyze files =
        analyzeFiles analyze (files.filter (fun f => isCodeFile f.filename))) ∧
    (∀ (analyze : PullRequestFile → List SecurityFinding) (files : List PullRequestFile),
      (analyzeFiles analyze files).findings =
        (files.filter (fun f => isCodeFile f.filename)).flatMap analyze) := by
  refine ⟨?_, ?_, ?_⟩
  · intro filename
    simp [isCodeFile, List.any_eq_true]
  · intro analyze files
    simp [analyzeFiles, List.filter_filter]
  · intro analyze files
    simp only [analyzeFiles]
    exact analyzeBatches_eq_flatMap analyze _ _ (Nat.le_refl _)

/-- A concrete code file for the C10 witness. -/
def c10file : PullRequestFile :=
  { filename := "app.ts", status := "modified", patch := some "+ x", additions := 1
    deletions := 0 }

/-- A concrete non-code file for the C10 witness. -/
def c10doc : PullRequestFile :=
  { filename := "README.md", status := "modified", patch := some "+ y", additions := 1
    deletions := 0 }

/-- C10 witness: the extension characterization at a concrete name, and the
skip property at a concrete two-file list. -/
theorem claim_C10_witness :
    (isCodeFile "app.ts" = true ↔
      ∃ ext ∈ codeExtensions, ("app.ts").endsWith ext = true) ∧
    analyzeFiles (fun _ => []) [c10file, c10doc] =
      analyzeFiles (fun _ => [])
        ([c10file, c10doc].filter (fun f => isCodeFile f.filename)) :=
  ⟨claim_C10.1 "app.ts", claim_C10.2.1 (fun _ => []) [c10file, c10doc]⟩

/-- C5: when the LLM response is not a well-formed finding list — no bracket
span in the text, or a span `JSON.parse` rejects — the per-file analysis
yields the empty finding list.  `analyzeResponseText` is a total function
whose every failure branch returns `[]`, modelling that the no-match check
and the surrounding try/catch keep malformed output from ever crashing the
scan. -/
theorem claim_C5 (text filename : String) :
    (extractJsonArray text = Option.none → analyzeResponseText text filename = []) ∧
    (∀ s, extractJsonArray text = some s → jsonParse s = Option.none →
      analyzeResponseText text filename = []) := by
  constructor
  · intro h
    simp [analyzeResponseText, h]
  · intro s hs hp
    simp [analyzeResponseText, hs, hp]

/-- C5 witness: a prose-only response and an unparsable bracket span both
degrade to zero findings. -/
theorem claim_C5_witness :
    analyzeResponseText "The model returned no structured output." "a.ts" = [] ∧
    analyzeResponseText "[not json]" "a.ts" = [] :=
  ⟨(claim_C5 "The model returned no structured output." "a.ts").1 rfl,
   (claim_C5 "[not json]" "a.ts").2 "[not json]" rfl rfl⟩

/-- If the text splits as bracket-free prose, then an `[...]` span, then
bracket-free prose, the regex model extracts exactly that span. -/
theorem extractJsonArray_embed (text : String) (p a q : List Char)
    (htext : text.toList = p ++ a ++ q)
    (hp : ∀ c ∈ p, c ≠ '[' ∧ c ≠ ']')
    (hq : ∀ c ∈ q, c ≠ '[' ∧ c ≠ ']')
    (hhead : a.head? = some '[')
    (hlast : a.getLast? = some ']') :
    extractJsonArray text = some (String.mk a) := by
  obtain ⟨x, t, rfl⟩ : ∃ x t, a = x :: t := by
    cases a with
    | nil => simp at hhead
    | cons x t => exact ⟨x, t, rfl⟩
  have hx : x = '[' := by simpa using hhead
  subst hx
  have ht : t ≠ [] := by
    intro h
    subst h
    simp at hlast
  have hfindp : p.findIdx? (fun c => c == '[') = Option.none := by
    rw [List.findIdx?_eq_none_iff]
    intro c hc
    simpa using (hp c hc).1
  have hfindq : q.reverse.findIdx? (fun c => c == ']') = Option.none := by
    rw [List.findIdx?_eq_none_iff]
    intro c hc
    simpa using (hq c (List.mem_reverse.1 hc)).2
  have hfirst : (p ++ ('[' :: t) ++ q).findIdx? (fun c => c == '[') = some p.length := by
    rw [List.append_assoc]
    simp [List.findIdx?_append, hfindp]
  obtain ⟨y, ys, hrev⟩ : ∃ y ys, ('[' :: t).reverse = y :: ys := by
    have hne : ('[' :: t).reverse ≠ [] := by simp
    cases hr : ('[' :: t).reverse with
    | nil => exact absurd hr hne
    | cons y ys => exact ⟨y, ys, rfl⟩
  have hy : y = ']' := by
    have h1 : ('[' :: t).reverse.head? = some ']' := by
      rw [List.head?_reverse]
      exact hlast
    rw [hrev] at h1
    simpa using h1
  subst hy
  have hsecond : (p ++ ('[' :: t) ++ q).reverse.findIdx? (fun c => c == ']')
      = some q.length := by
    rw [List.reverse_append, List.reverse_append, hrev]
    simp [List.findIdx?_append, hfindq]
  have htlen : 1 ≤ t.length := by
    cases t with
    | nil => exact absurd rfl ht
    | cons _ _ => simp
  unfold extractJsonArray
  rw [htext]
  dsimp only
  rw [hfirst, hsecond]
  dsimp only
  have hj : (p ++ '[' :: t ++ q).length - 1 - q.length = p.length + t.length := by
    simp only [List.length_append, List.length_cons]
    omega
  simp only [hj]
  have hij : p.length < p.length + t.length := by omega
  rw [if_pos hij]
  have hdrop : ((p ++ '[' :: t ++ q).drop p.length) = ('[' :: t) ++ q := by
    rw [List.append_assoc]
    exact List.drop_left p (('[' :: t) ++ q)
  have htake : ((('[' :: t) ++ q).take (p.length + t.length + 1 - p.length))
      = '[' :: t := by
    have h5 : p.length + t.length + 1 - p.length = ('[' :: t).length := by
      simp only [List.length_cons]
      omega
    rw [h5]
    exact List.take_left ('[' :: t) q
  rw [hdrop, htake]

/-- C9 (amended): the per-file analysis extracts the span from the first `[`
to the last `]` of the response and parses it; consequently it tolerates both
a plain JSON array and a JSON array embedded in surrounding prose/markdown
that contains no other square brackets, parsing the findings from that span
in both cases. -/
theorem claim_C9 (pre arrTxt post filename : String) (xs : List Json)
    (hpre : ∀ c ∈ pre.toList, c ≠ '[' ∧ c ≠ ']')
    (hpost : ∀ c ∈ post.toList, c ≠ '[' ∧ c ≠ ']')
    (hhead : arrTxt.toList.head? = some '[')
    (hlast : arrTxt.toList.getLast? = some ']')
    (hparse : jsonParse arrTxt = some (Json.arr xs)) :
    analyzeResponseText (pre ++ arrTxt ++ post) filename
      = (xs.filter confidenceOk).map (withFileField filename) ∧
    analyzeResponseText arrTxt filename
      = (xs.filter confidenceOk).map (withFileField filename) := by
  have hmk : String.mk arrTxt.toList = arrTxt := rfl
  constructor
  · have hex : extractJsonArray (pre ++ arrTxt ++ post) = some arrTxt := by
      have hembed := extractJsonArray_embed (pre ++ arrTxt ++ post)
        pre.toList arrTxt.toList post.toList
        (by simp [String.toList]) hpre hpost hhead hlast
      rwa [hmk] at hembed
    simp [analyzeResponseText, hex, hparse]
  · have hex : extractJsonArray arrTxt = some arrTxt := by
      have hembed := extractJsonArray_embed arrTxt [] arrTxt.toList []
        (by simp) (by simp) (by simp) hhead hlast
      rwa [hmk] at hembed
    simp [analyzeResponseText, hex, hparse]

/-- Bracket-free prose before the array, for the C9 witness. -/
def c9pre : String := "Here is the result:\n"

/-- A plain JSON findings array, for the C9 witness. -/
def c9arr : String := "[\x7b\"confidence\":1\x7d]"

/-- Bracket-free prose after the array, for the C9 witness. -/
def c9post : String := " Done."

/-- The parsed elements of `c9arr`. -/
def c9xs : List Json := [Json.obj [("confidence", Json.num (mkRat 1 1))]]

/-- C9 witness: the array embedded in bracket-free prose is found and its
findings survive normalization. -/
theorem claim_C9_witness :
    analyzeResponseText (c9pre ++ c9arr ++ c9post) "x.ts"
      = (c9xs.filter confidenceOk).map (withFileField "x.ts") :=
  (claim_C9 c9pre c9arr c9post "x.ts" c9xs (by decide) (by decide) (by decide)
    (by decide) (by rfl)).1

/-- A response whose first well-formed JSON array is not the extracted span:
a stray bracketed token precedes the real findings array. -/
def c9badText : String := "[a] [\x7b\"confidence\":1\x7d]"

/-- The first well-formed JSON array inside `c9badText` (with its leading
whitespace). -/
def c9badSub : String := " [\x7b\"confidence\":1\x7d]"

/-- C9 counterexample to the claim as stated: the analysis does not extract
the first well-formed JSON array of the text.  On `c9badText` the span from
the first `[` to the last `]` is unparsable, so the analysis returns `[]`,
although the text contains a well-formed findings array that parses to one
above-threshold finding. -/
theorem claim_C9_counterexample :
    ¬ (∀ (text filename s : String) (xs : List Json),
        firstJsonArraySub text = some s → jsonParse s = some (Json.arr xs) →
        analyzeResponseText text filename
          = (xs.filter confidenceOk).map (withFileField filename)) := by
  intro h
  have hx := h c9badText "a.ts" c9badSub c9xs rfl rfl
  have h0 : analyzeResponseText c9badText "a.ts" = [] := rfl
  have h1 : (c9xs.filter confidenceOk).map (withFileField "a.ts")
      = Json.obj [("confidence", Json.num (mkRat 1 1)), ("file", Json.str "a.ts")]
        :: [] := rfl
  rw [h0, h1] at hx
  exact List.noConfusion hx

/-- Getting the key just set returns the value just set. -/
theorem mapGet_mapSet_self {α : Type} (l : List (String × α)) (k : String) (v : α) :
    mapGet (mapSet l k v) k = some v := by
  induction l with
  | nil => simp [mapSet, mapGet]
  | cons p rest ih =>
    obtain ⟨k', w⟩ := p
    by_cases h : k' = k <;> simp [mapSet, mapGet, h, ih]

/-- Setting one key does not change what any other key maps to. -/
theorem mapGet_mapSet_ne {α : Type} (l : List (String × α)) (k k' : String) (v : α)
    (h : k ≠ k') : mapGet (mapSet l k v) k' = mapGet l k' := by
  have hk : ¬(k' = k) := fun he => h he.symm
  induction l with
  | nil => simp [mapSet, mapGet, h, hk]
  | cons p rest ih =>
    obtain ⟨k0, w⟩ := p
    by_cases h0 : k0 = k
    · subst h0
      simp [mapSet, mapGet, h]
    · by_cases h1 : k0 = k' <;> simp [mapSet, mapGet, h0, h1, ih, hk]

/-- A key is absent exactly when it is not among the stored keys. -/
theorem mapGet_eq_none_iff {α : Type} (l : List (String × α)) (k : String) :
    mapGet l k = Option.none ↔ k ∉ l.map Prod.fst := by
  induction l with
  | nil => simp [mapGet]
  | cons p rest ih =>
    obtain ⟨k', w⟩ := p
    by_cases h : k' = k
    · subst h
      simp [mapGet]
    · have h2 : ¬(k = k') := fun he => h he.symm
      simp [mapGet, h, h2, ih]

/-- Setting an absent key appends the new entry at the end. -/
theorem mapSet_of_none {α : Type} (l : List (String × α)) (k : String) (v : α)
    (h : mapGet l k = Option.none) : mapSet l k v = l ++ [(k, v)] := by
  induction l with
  | nil => simp [mapSet]
  | cons p rest ih =>
    obtain ⟨k', w⟩ := p
    by_cases h0 : k' = k
    · subst h0
      simp [mapGet] at h
    · simp [mapGet, h0] at h
      simp [mapSet, h0, ih h]

/-- The keys after a set are the old keys, possibly with the new key appended. -/
theorem mem_keys_mapSet {α : Type} (l : List (String × α)) (k : String) (v : α)
    (k' : String) :
    k' ∈ (mapSet l k v).map Prod.fst ↔ k' ∈ l.map Prod.fst ∨ k' = k := by
  induction l with
  | nil => simp [mapSet]
  | cons p rest ih =>
    obtain ⟨k0, w⟩ := p
    by_cases h0 : k0 = k
    · subst h0
      simp [mapSet]
      intro h
      exact Or.inl h
    · simp [mapSet, h0, ih]
      tauto

/-- Ids never inserted are never found, along any chain of saves. -/
theorem getScanById_foldl_none (rs : List ScanReport) :
    ∀ (st : Store) (idv : String), mapGet st.scansById idv = Option.none →
      (∀ x ∈ rs, x.id ≠ idv) →
      getScanById (rs.foldl insertScan st) idv = Option.none := by
  induction rs with
  | nil =>
    intro st idv h _
    exact h
  | cons r rs ih =>
    intro st idv h hall
    simp only [List.foldl_cons]
    apply ih
    · show mapGet (mapSet st.scansById r.id r) idv = Option.none
      rw [mapGet_mapSet_ne _ _ _ _ (hall r (by simp))]
      exact h
    · intro x hx
      exact hall x (List.mem_cons_of_mem _ hx)

/-- C3: saving a report and reading its id back returns that report, and an
id that no save ever used reads back as absent ("not found"). -/
theorem claim_C3 (st : Store) (r : ScanReport) (rs : List ScanReport) (idv : String) :
    getScanById (saveScan st r) r.id = some r ∧
    ((∀ x ∈ rs, x.id ≠ idv) →
      getScanById (rs.foldl saveScan emptyStore) idv = Option.none) := by
  constructor
  · exact mapGet_mapSet_self st.scansById r.id r
  · intro hall
    exact getScanById_foldl_none rs emptyStore idv rfl hall

/-- Concrete report for the C3 witness. -/
def c3r : ScanReport :=
  { id := "scan-1", owner := "alice", repo := "app", pullNumber := 7
    headSha := "abc123", scannedAt := 1700, filesScanned := 2, findings := []
    summary := "ok", overallRisk := Risk.none }

/-- C3 witness: round trip at a concrete report, and a miss for an id that
was never saved. -/
theorem claim_C3_witness :
    getScanById (saveScan emptyStore c3r) c3r.id = some c3r ∧
    getScanById ([c3r].foldl saveScan emptyStore) "ghost" = Option.none :=
  ⟨(claim_C3 emptyStore c3r [c3r] "ghost").1,
   (claim_C3 emptyStore c3r [c3r] "ghost").2 (by decide)⟩

/-- The secondary index agrees with the primary map: each key's id list is
exactly the ids of the stored reports with that repo key, in insertion
order. -/
def indexConsistent (st : Store) : Prop :=
  ∀ k, (mapGet st.scansByRepo k).getD []
      = ((storeReports st).filter (fun r => repoKey r == k)).map ScanReport.id

/-- `getRepos` lists exactly the repo keys of the stored reports. -/
def reposComplete (st : Store) : Prop :=
  ∀ k, k ∈ getRepos st ↔ ∃ r ∈ storeReports st, repoKey r = k

/-- Inserting a fresh id appends to the primary map. -/
theorem insertScan_scansById (st : Store) (r : ScanReport)
    (h : mapGet st.scansById r.id = Option.none) :
    (insertScan st r).scansById = st.scansById ++ [(r.id, r)] := by
  simp [insertScan, mapSet_of_none _ _ _ h]

/-- One fresh insert keeps the index consistent with the primary map and the
repo list complete, and appends the report and its id. -/
theorem insertScan_preserves (st : Store) (r : ScanReport)
    (hfresh : mapGet st.scansById r.id = Option.none)
    (hinv : indexConsistent st) (hrep : reposComplete st) :
    indexConsistent (insertScan st r) ∧ reposComplete (insertScan st r) ∧
    storeReports (insertScan st r) = storeReports st ++ [r] ∧
    storedIds (insertScan st r) = storedIds st ++ [r.id] := by
  have hbyid := insertScan_scansById st r hfresh
  have hreports : storeReports (insertScan st r) = storeReports st ++ [r] := by
    simp [storeReports, hbyid]
  have hids : storedIds (insertScan st r) = storedIds st ++ [r.id] := by
    simp [storedIds, hbyid]
  refine ⟨?_, ?_, hreports, hids⟩
  · intro k
    by_cases hk : repoKey r = k
    · subst hk
      have hget : mapGet (insertScan st r).scansByRepo (repoKey r)
          = some ((mapGet st.scansByRepo (repoKey r)).getD [] ++ [r.id]) :=
        mapGet_mapSet_self _ _ _
      rw [hget, Option.getD_some, hinv (repoKey r), hreports, List.filter_append]
      simp
    · have hget : mapGet (insertScan st r).scansByRepo k = mapGet st.scansByRepo k :=
        mapGet_mapSet_ne _ _ _ _ hk
      rw [hget, hinv k, hreports, List.filter_append]
      have hnil : List.filter (fun x => repoKey x == k) [r] = [] := by
        simp [hk]
      rw [hnil, List.append_nil]
  · intro k
    show k ∈ (mapSet st.scansByRepo (repoKey r) _).map Prod.fst ↔ _
    rw [mem_keys_mapSet, hreports]
    constructor
    · rintro (hin | rfl)
      · obtain ⟨r', hr', hkr⟩ := (hrep k).1 hin
        exact ⟨r', by simp [hr'], hkr⟩
      · exact ⟨r, by simp, rfl⟩
    · rintro ⟨r', hr', hkr⟩
      rcases List.mem_append.1 hr' with h1 | h2
      · exact Or.inl ((hrep k).2 ⟨r', h1, hkr⟩)
      · have : r' = r := by simpa using h2
        subst this
        exact Or.inr hkr.symm

/-- Folding fresh inserts from any consistent state stays consistent and
appends the reports in order. -/
theorem foldl_insertScan_inv (rs : List ScanReport) :
    ∀ st : Store, indexConsistent st → reposComplete st →
      (∀ x ∈ rs, x.id ∉ storedIds st) → (rs.map ScanReport.id).Nodup →
      indexConsistent (rs.foldl insertScan st) ∧
      reposComplete (rs.foldl insertScan st) ∧
      storeReports (rs.foldl insertScan st) = storeReports st ++ rs := by
  induction rs with
  | nil =>
    intro st h1 h2 _ _
    exact ⟨h1, h2, by simp⟩
  | cons r rs ih =>
    intro st h1 h2 hfresh hnodup
    have hf : mapGet st.scansById r.id = Option.none :=
      (mapGet_eq_none_iff _ _).2 (hfresh r (by simp))
    obtain ⟨hi1, hi2, hrep, hids⟩ := insertScan_preserves st r hf h1 h2
    simp only [List.foldl_cons]
    rw [List.map_cons, List.nodup_cons] at hnodup
    have hnotin : r.id ∉ rs.map ScanReport.id := hnodup.1
    have hfresh' : ∀ x ∈ rs, x.id ∉ storedIds (insertScan st r) := by
      intro x hx
      rw [hids]
      simp only [List.mem_append, List.mem_singleton]
      rintro (hin | heq)
      · exact hfresh x (List.mem_cons_of_mem _ hx) hin
      · exact hnotin (heq ▸ List.mem_map_of_mem _ hx)
    have hnodup' : (rs.map ScanReport.id).Nodup := hnodup.2
    obtain ⟨g1, g2, g3⟩ := ih (insertScan st r) hi1 hi2 hfresh' hnodup'
    refine ⟨g1, g2, ?_⟩
    rw [g3, hrep, List.append_assoc, List.singleton_append]

/-- C4: after any sequence of saves with fresh ids (and likewise after the
`loadScans` rebuild, which performs the same per-scan insertion), the store
holds exactly the saved reports in order, each index entry lists exactly the
ids of the stored reports with that repo key in insertion order and without
duplicates, and `getRepos` names exactly the repo keys of the stored
reports. -/
theorem claim_C4 (rs : List ScanReport) (h : (rs.map ScanReport.id).Nodup) :
    storeReports (rs.foldl saveScan emptyStore) = rs ∧
    indexConsistent (rs.foldl saveScan emptyStore) ∧
    reposComplete (rs.foldl saveScan emptyStore) ∧
    (∀ k, ((mapGet (rs.foldl saveScan emptyStore).scansByRepo k).getD []).Nodup) ∧
    loadScans rs = rs.foldl saveScan emptyStore := by
  have hiempty : indexConsistent emptyStore := by
    intro k
    simp [mapGet, emptyStore, storeReports]
  have hrempty : reposComplete emptyStore := by
    intro k
    simp [getRepos, emptyStore, storeReports]
  obtain ⟨g1, g2, g3⟩ := foldl_insertScan_inv rs emptyStore hiempty hrempty
    (by intro x _; simp [storedIds, emptyStore]) h
  have hrs : storeReports (rs.foldl saveScan emptyStore) = rs := by
    have : storeReports (rs.foldl insertScan emptyStore) = rs := by
      rw [g3]
      simp [storeReports, emptyStore]
    exact this
  refine ⟨hrs, g1, g2, ?_, rfl⟩
  intro k
  show ((mapGet (rs.foldl insertScan emptyStore).scansByRepo k).getD []).Nodup
  have hrs2 : storeReports (rs.foldl insertScan emptyStore) = rs := by
    rw [g3]
    simp [storeReports, emptyStore]
  rw [g1 k, hrs2]
  have hsub : ((rs.filter (fun r => repoKey r == k)).map ScanReport.id).Sublist
      (rs.map ScanReport.id) :=
    (List.filter_sublist rs).map ScanReport.id
  exact h.sublist hsub

/-- First concrete report for the C4 witness. -/
def c4a : ScanReport :=
  { id := "scan-a", owner := "alice", repo := "app", pullNumber := 1
    headSha := "aaa", scannedAt := 100, filesScanned := 1, findings := []
    summary := "ok", overallRisk := Risk.none }

/-- Second concrete report for the C4 witness, same repository. -/
def c4b : ScanReport :=
  { id := "scan-b", owner := "alice", repo := "app", pullNumber := 2
    headSha := "bbb", scannedAt := 200, filesScanned := 1, findings := []
    summary := "ok", overallRisk := Risk.none }

/-- C4 witness: two fresh saves into one repository keep the index equal to
the id list of that repository's stored reports. -/
theorem claim_C4_witness :
    storeReports ([c4a, c4b].foldl saveScan emptyStore) = [c4a, c4b] ∧
    (mapGet ([c4a, c4b].foldl saveScan emptyStore).scansByRepo "alice/app").getD []
      = (([c4a, c4b] : List ScanReport).filter
          (fun r => repoKey r == "alice/app")).map ScanReport.id :=
  ⟨(claim_C4 [c4a, c4b] (by decide)).1,
   by
    have h2 := (claim_C4 [c4a, c4b] (by decide)).2.1 "alice/app"
    rwa [(claim_C4 [c4a, c4b] (by decide)).1] at h2⟩

/-- The notable-findings relation is total. -/
theorem notableLE_total (a b : NotableEntry) :
    notableLE a b = true ∨ notableLE b a = true := by
  cases hA : (a.finding.severity == Severity.critical) <;>
    cases hB : (b.finding.severity == Severity.critical) <;>
      simp [notableLE, hA, hB] <;> omega

/-- The notable-findings relation is transitive. -/
theorem notableLE_trans (a b c : NotableEntry) :
    notableLE a b = true → notableLE b c = true → notableLE a c = true := by
  cases hA : (a.finding.severity == Severity.critical) <;>
    cases hB : (b.finding.severity == Severity.critical) <;>
      cases hC : (c.finding.severity == Severity.critical) <;>
        simp [notableLE, hA, hB, hC] <;> omega

/-- C6: the notable feed holds only critical/high pairs; no high pair ever
precedes a critical pair; within a tier the owning scans' timestamps are
non-increasing; and the feed has at most `limit` entries. -/
theorem claim_C6 (st : Store) (limit : Nat) :
    (∀ p ∈ getNotableFindings st limit,
      p.finding.severity = Severity.critical ∨ p.finding.severity = Severity.high) ∧
    (getNotableFindings st limit).Pairwise (fun a b =>
      (a.finding.severity = Severity.high → b.finding.severity ≠ Severity.critical) ∧
      (a.finding.severity = b.finding.severity → b.scan.scannedAt ≤ a.scan.scannedAt)) ∧
    (getNotableFindings st limit).length ≤ limit := by
  refine ⟨?_, ?_, ?_⟩
  · intro p hp
    have h1 : p ∈ (collectNotable st).insertionSort (fun a b => notableLE a b = true) :=
      (List.take_sublist _ _).subset hp
    have h2 : p ∈ collectNotable st := (List.perm_insertionSort _ _).mem_iff.1 h1
    simp only [collectNotable, List.mem_flatMap, List.mem_map, List.mem_filter] at h2
    obtain ⟨scan, _, f, ⟨_, hsev⟩, rfl⟩ := h2
    simpa using hsev
  · haveI : IsTotal NotableEntry (fun a b => notableLE a b = true) := ⟨notableLE_total⟩
    haveI : IsTrans NotableEntry (fun a b => notableLE a b = true) := ⟨notableLE_trans⟩
    have hs : ((collectNotable st).insertionSort
        (fun a b => notableLE a b = true)).Pairwise (fun a b => notableLE a b = true) :=
      List.sorted_insertionSort (fun a b => notableLE a b = true) (collectNotable st)
    refine List.Pairwise.sublist (List.take_sublist _ _) (hs.imp ?_)
    intro a b hab
    constructor
    · intro hhigh hcrit
      have ha : (a.finding.severity == Severity.critical) = false := by
        simp [hhigh]
      simp [notableLE, ha, hcrit] at hab
    · intro hsame
      have hb : (b.finding.severity == Severity.critical)
          = (a.finding.severity == Severity.critical) := by
        rw [hsame]
      cases hA : (a.finding.severity == Severity.critical) <;>
        (rw [hA] at hb; simp [notableLE, hA, hb] at hab; exact hab)
  · exact List.length_take_le _ _

/-- Critical finding stored at the older scan, for the C6 witness. -/
def c6fCrit : SecurityFinding :=
  { type := "RCE", severity := Severity.critical, file := "a.ts", line := 1
    description := "d", suggestion := "s", cweId := Option.none
    owaspCategory := Option.none, confidence := mkRat 9 10 }

/-- High finding stored at the newer scan, for the C6 witness. -/
def c6fHigh : SecurityFinding :=
  { type := "XSS", severity := Severity.high, file := "b.ts", line := 2
    description := "d", suggestion := "s", cweId := Option.none
    owaspCategory := Option.none, confidence := mkRat 8 10 }

/-- Older scan holding the critical finding. -/
def c6scanOld : ScanReport :=
  { id := "s1", owner := "o", repo := "r", pullNumber := 1, headSha := "h1"
    scannedAt := 100, filesScanned := 1, findings := [c6fCrit]
    summary := "x", overallRisk := Risk.critical }

/-- Newer scan holding the high finding. -/
def c6scanNew : ScanReport :=
  { id := "s2", owner := "o", repo := "r", pullNumber := 2, headSha := "h2"
    scannedAt := 200, filesScanned := 1, findings := [c6fHigh]
    summary := "x", overallRisk := Risk.high }

/-- Store with one critical (older) and one high (newer) finding. -/
def c6store : Store := [c6scanOld, c6scanNew].foldl saveScan emptyStore

/-- C6 witness: the feed length is bounded and a concrete member is
critical-or-high. -/
theorem claim_C6_witness :
    (getNotableFindings c6store 10).length ≤ 10 ∧
    (({ scan := c6scanOld, finding := c6fCrit } : NotableEntry).finding.severity
        = Severity.critical ∨
      ({ scan := c6scanOld, finding := c6fCrit } : NotableEntry).finding.severity
        = Severity.high) :=
  ⟨(claim_C6 c6store 10).2.2,
   (claim_C6 c6store 10).1 { scan := c6scanOld, finding := c6fCrit } (by decide)⟩

/-- C7: `listScans` reports the pre-pagination total of the (optionally
repo-filtered) reports, returns a page of size
`min limit (total - (page-1)·limit)` for 1-based pages, and in particular a
25-report store at page 2 with limit 20 yields 5 reports and total 25. -/
theorem claim_C7 (st : Store) (page limit : Nat) (repoFilter : Option String)
    (sortBy ord : String) (hp : 1 ≤ page) :
    (listScans st page limit repoFilter sortBy ord).total
        = (filteredReports st repoFilter).length ∧
    (listScans st page limit repoFilter sortBy ord).scans.length
        = min limit ((filteredReports st repoFilter).length - (page - 1) * limit) ∧
    ((storeReports st).length = 25 →
      (listScans st 2 20 Option.none sortBy ord).scans.length = 5 ∧
      (listScans st 2 20 Option.none sortBy ord).total = 25) := by
  have hlen : ∀ rf, ((filteredReports st rf).insertionSort
      (fun a b => scanLE sortBy ord a b = true)).length
      = (filteredReports st rf).length :=
    fun rf => (List.perm_insertionSort _ _).length_eq
  refine ⟨?_, ?_, ?_⟩
  · simpa [listScans] using hlen repoFilter
  · simp [listScans, List.length_take, List.length_drop, hlen repoFilter]
  · intro h25
    have h25f : (filteredReports st Option.none).length = 25 := by
      simpa [filteredReports] using h25
    constructor
    · simp [listScans, List.length_take, List.length_drop, hlen Option.none, h25f]
    · simpa [listScans, hlen Option.none] using h25f

/-- A distinct scan report per index, for the C7 witness. -/
def mkC7Report (i : Nat) : ScanReport :=
  { id := "scan-" ++ toString i, owner := "o", repo := "r", pullNumber := i
    headSha := "sha", scannedAt := 1000 + i, filesScanned := 1, findings := []
    summary := "ok", overallRisk := Risk.none }

/-- A store holding 25 reports. -/
def c7store : Store := ((List.range 25).map mkC7Report).foldl saveScan emptyStore

/-- C7 witness: page 2 with limit 20 over 25 stored reports returns 5 reports
and total 25. -/
theorem claim_C7_witness :
    (listScans c7store 2 20 Option.none "scannedAt" "desc").scans.length = 5 ∧
    (listScans c7store 2 20 Option.none "scannedAt" "desc").total = 25 :=
  (claim_C7 c7store 2 20 Option.none "scannedAt" "desc" (by omega)).2.2 (by decide)

/-- Folding the per-finding counter bump adds the per-severity counts. -/
theorem foldl_bumpSeverity (fs : List SecurityFinding) :
    ∀ c0 : SeverityCounts,
      fs.foldl (fun c f => bumpSeverity c f.severity) c0 =
        { critical := c0.critical + fs.countP (fun f => f.severity == Severity.critical)
          high := c0.high + fs.countP (fun f => f.severity == Severity.high)
          medium := c0.medium + fs.countP (fun f => f.severity == Severity.medium)
          low := c0.low + fs.countP (fun f => f.severity == Severity.low) } := by
  induction fs with
  | nil => intro c0; simp
  | cons f fs ih =>
    intro c0
    rw [List.foldl_cons, ih]
    cases hs : f.severity <;>
      simp [bumpSeverity, hs, List.countP_cons, SeverityCounts.mk.injEq] <;> omega

/-- `Nat.max` by cases: right argument when it dominates. -/
theorem natMax_eq_right {a b : Nat} (h : a ≤ b) : Nat.max a b = b := by
  show (if a ≤ b then b else a) = b
  rw [if_pos h]

/-- `Nat.max` by cases: left argument when it dominates. -/
theorem natMax_eq_left {a b : Nat} (h : b ≤ a) : Nat.max a b = a := by
  show (if a ≤ b then b else a) = a
  by_cases hc : a ≤ b
  · rw [if_pos hc]
    omega
  · rw [if_neg hc]

/-- The left argument is below the maximum. -/
theorem le_natMax_left (a b : Nat) : a ≤ Nat.max a b := by
  show a ≤ if a ≤ b then b else a
  by_cases hc : a ≤ b
  · rw [if_pos hc]
    exact hc
  · rw [if_neg hc]

/-- The right argument is below the maximum. -/
theorem le_natMax_right (a b : Nat) : b ≤ Nat.max a b := by
  show b ≤ if a ≤ b then b else a
  by_cases hc : a ≤ b
  · rw [if_pos hc]
  · rw [if_neg hc]
    omega

/-- The truthy `lastScanAt` update is the maximum once a value is present. -/
theorem lastStep_some (t d : Nat) : lastStep (some t) d = some (Nat.max t d) := by
  show (if t = 0 ∨ t < d then some d else some t) = some (Nat.max t d)
  split_ifs with h
  · rw [natMax_eq_right (by omega)]
  · rw [natMax_eq_left (by omega)]

/-- Folding the `lastScanAt` update from a present value folds the maximum. -/
theorem foldl_lastStep_some (ds : List Nat) :
    ∀ t, ds.foldl lastStep (some t) = some (ds.foldl Nat.max t) := by
  induction ds with
  | nil => intro t; rfl
  | cons d ds ih =>
    intro t
    rw [List.foldl_cons, List.foldl_cons, lastStep_some, ih]

/-- Folding the `lastScanAt` update from `null`: `none` on no data, the
running maximum otherwise. -/
theorem foldl_lastStep_none (ds : List Nat) :
    ds.foldl lastStep Option.none =
      match ds with
      | [] => Option.none
      | d :: ds' => some (ds'.foldl Nat.max d) := by
  cases ds with
  | nil => rfl
  | cons d ds' =>
    rw [List.foldl_cons]
    exact foldl_lastStep_some ds' d

/-- The folded maximum is attained by the seed or a member and bounds both. -/
theorem foldl_max_spec (ds : List Nat) :
    ∀ t, (ds.foldl Nat.max t = t ∨ ds.foldl Nat.max t ∈ ds) ∧
      t ≤ ds.foldl Nat.max t ∧ ∀ d ∈ ds, d ≤ ds.foldl Nat.max t := by
  induction ds with
  | nil => intro t; simp
  | cons d ds ih =>
    intro t
    have hfold : (d :: ds).foldl Nat.max t = ds.foldl Nat.max (Nat.max t d) := rfl
    rcases Nat.le_total t d with hle | hle
    · rw [hfold, natMax_eq_right hle]
      obtain ⟨h1, h2, h3⟩ := ih d
      refine ⟨?_, ?_, ?_⟩
      · rcases h1 with h | h
        · rw [h]
          exact Or.inr (List.mem_cons_self d ds)
        · exact Or.inr (List.mem_cons_of_mem d h)
      · exact le_trans hle h2
      · intro x hx
        rcases List.mem_cons.1 hx with rfl | hx'
        · exact h2
        · exact h3 x hx'
    · rw [hfold, natMax_eq_left hle]
      obtain ⟨h1, h2, h3⟩ := ih t
      refine ⟨?_, ?_, ?_⟩
      · rcases h1 with h | h
        · exact Or.inl h
        · exact Or.inr (List.mem_cons_of_mem d h)
      · exact h2
      · intro x hx
        rcases List.mem_cons.1 hx with rfl | hx'
        · exact le_trans hle h2
        · exact h3 x hx'

/-- The accumulated stats over a scan list, field by field. -/
theorem foldl_statsStep (scans : List ScanReport) :
    ∀ acc : Stats,
      scans.foldl statsStep acc =
        { totalScans := acc.totalScans
          totalFindings := acc.totalFindings + (scans.flatMap ScanReport.findings).length
          bySeverity := (scans.flatMap ScanReport.findings).foldl
            (fun c f => bumpSeverity c f.severity) acc.bySeverity
          lastScanAt := (scans.map ScanReport.scannedAt).foldl lastStep acc.lastScanAt } := by
  induction scans with
  | nil => intro acc; simp
  | cons s ss ih =>
    intro acc
    rw [List.foldl_cons, ih]
    simp [statsStep, List.foldl_append, Nat.add_assoc]

/-- C8: `getStats` counts the stored scans, sums the finding counts, counts
findings per severity across all scans (so severities
`[critical, critical, high, low]` give counts 2/1/0/1 and 4 findings), and
reports the most recent `scannedAt` — an attained upper bound of all stored
timestamps — or `null` exactly when the store is empty. -/
theorem claim_C8 (st : Store) :
    (getStats st).totalScans = (storeReports st).length ∧
    (getStats st).totalFindings = (allFindings st).length ∧
    (getStats st).bySeverity.critical
        = (allFindings st).countP (fun f => f.severity == Severity.critical) ∧
    (getStats st).bySeverity.high
        = (allFindings st).countP (fun f => f.severity == Severity.high) ∧
    (getStats st).bySeverity.medium
        = (allFindings st).countP (fun f => f.severity == Severity.medium) ∧
    (getStats st).bySeverity.low
        = (allFindings st).countP (fun f => f.severity == Severity.low) ∧
    ((getStats st).lastScanAt = Option.none ↔ storeReports st = []) ∧
    (∀ t, (getStats st).lastScanAt = some t →
      (∃ r ∈ storeReports st, r.scannedAt = t) ∧
      ∀ r ∈ storeReports st, r.scannedAt ≤ t) ∧
    ((allFindings st).map SecurityFinding.severity
        = [Severity.critical, Severity.critical, Severity.high, Severity.low] →
      (getStats st).bySeverity = ⟨2, 1, 0, 1⟩ ∧ (getStats st).totalFindings = 4) := by
  have hstats : getStats st =
      { totalScans := (storeReports st).length
        totalFindings := 0 + (allFindings st).length
        bySeverity := (allFindings st).foldl (fun c f => bumpSeverity c f.severity)
          ⟨0, 0, 0, 0⟩
        lastScanAt := ((storeReports st).map ScanReport.scannedAt).foldl lastStep
          Option.none } := by
    unfold getStats allFindings
    exact foldl_statsStep (storeReports st) _
  have hby := foldl_bumpSeverity (allFindings st) ⟨0, 0, 0, 0⟩
  refine ⟨by rw [hstats], by rw [hstats]; simp, ?_, ?_, ?_, ?_, ?_, ?_, ?_⟩
  · rw [hstats]
    simp [hby]
  · rw [hstats]
    simp [hby]
  · rw [hstats]
    simp [hby]
  · rw [hstats]
    simp [hby]
  · rw [hstats]
    simp only [foldl_lastStep_none]
    cases hr : storeReports st with
    | nil => simp
    | cons r rs => simp
  · intro t ht
    rw [hstats] at ht
    simp only [foldl_lastStep_none] at ht
    cases hr : storeReports st with
    | nil => rw [hr] at ht; simp at ht
    | cons r rs =>
      rw [hr] at ht
      simp only [List.map_cons] at ht
      have ht' : (rs.map ScanReport.scannedAt).foldl Nat.max r.scannedAt = t := by
        simpa using ht
      obtain ⟨h1, h2, h3⟩ := foldl_max_spec (rs.map ScanReport.scannedAt) r.scannedAt
      rw [ht'] at h1 h2 h3
      constructor
      · rcases h1 with h | h
        · exact ⟨r, List.mem_cons_self r rs, h.symm⟩
        · obtain ⟨r', hr', hval⟩ := List.mem_map.1 h
          exact ⟨r', List.mem_cons_of_mem r hr', hval⟩
      · intro r' hr'
        rcases List.mem_cons.1 hr' with rfl | hmem
        · exact h2
        · exact h3 r'.scannedAt (List.mem_map_of_mem _ hmem)
  · intro hsev
    have hlen : (allFindings st).length = 4 := by
      have := congrArg List.length hsev
      simpa using this
    have hcount : ∀ p : Severity → Bool,
        (allFindings st).countP (fun f => p f.severity)
          = ([Severity.critical, Severity.critical, Severity.high,
              Severity.low].countP p) := by
      intro p
      rw [← hsev, List.countP_map]
      rfl
    constructor
    · rw [hstats]
      simp only [hby]
      have h1 := hcount (fun s => s == Severity.critical)
      have h2 := hcount (fun s => s == Severity.high)
      have h3 := hcount (fun s => s == Severity.medium)
      have h4 := hcount (fun s => s == Severity.low)
      rw [h1, h2, h3, h4]
      decide
    · rw [hstats]
      simp [hlen]

/-- Findings with severities critical, critical, high, low for the C8
witness. -/
def c8f1 : SecurityFinding :=
  { type := "RCE", severity := Severity.critical, file := "a.ts", line := 1
    description := "d", suggestion := "s", cweId := Option.none
    owaspCategory := Option.none, confidence := mkRat 9 10 }

/-- Second critical finding for the C8 witness. -/
def c8f2 : SecurityFinding := { c8f1 with type := "SQLi", line := 2 }

/-- High finding for the C8 witness. -/
def c8f3 : SecurityFinding := { c8f1 with severity := Severity.high, line := 3 }

/-- Low finding for the C8 witness. -/
def c8f4 : SecurityFinding := { c8f1 with severity := Severity.low, line := 4 }

/-- One scan holding the four findings. -/
def c8scan : ScanReport :=
  { id := "s", owner := "o", repo := "r", pullNumber := 1, headSha := "h"
    scannedAt := 500, filesScanned := 4, findings := [c8f1, c8f2, c8f3, c8f4]
    summary := "x", overallRisk := Risk.critical }

/-- Store for the C8 witness. -/
def c8store : Store := saveScan emptyStore c8scan

/-- C8 witness: severities [critical, critical, high, low] produce counts
critical 2, high 1, medium 0, low 1 and 4 findings in total. -/
theorem claim_C8_witness :
    (getStats c8store).bySeverity = ⟨2, 1, 0, 1⟩ ∧
    (getStats c8store).totalFindings = 4 :=
  (claim_C8 c8store).2.2.2.2.2.2.2.2 (by decide)

end SecureShip
